import Mathlib

/-!
Shallow embedding of the multimodal contextual-retrieval notebook
(examples/parse/multimodal/multimodal_contextual_retrieval_rag.ipynb).

Pure Python functions become Lean functions; the Python dict used for node
metadata becomes an insertion-ordered association list; fallible operations
(list indexing that can raise IndexError, dict lookup that can raise
KeyError) return Option; the external LLM services are stubs passed as
function arguments, mirroring how the notebook receives `llm` as a
parameter.  Reference semantics of Python objects (needed for the
deep-copy / no-mutation claims) are modelled by an explicit store of node
cells addressed by natural-number references.
-/

/-- Value stored in a node's metadata dict: the notebook stores the integer
page number and string paths/texts.  Rendered to text the way Python str()
renders it. -/
inductive MetaVal where
  | num : Nat → MetaVal
  | str : String → MetaVal
deriving DecidableEq, Repr

/-- Render a metadata value as Python str() does (decimal for ints). -/
def MetaVal.render : MetaVal → String
  | .num n => toString n
  | .str s => s

/-- A Python dict with string keys, modelled as an insertion-ordered
association list (CPython dicts preserve insertion order). -/
abbrev MetaDict := List (String × MetaVal)

/-- Dict lookup: `d[k]` returns the value, or fails (KeyError) when absent. -/
def dictGet (k : String) : MetaDict → Option MetaVal
  | [] => none
  | (k2, v) :: rest => if k2 = k then some v else dictGet k rest

/-- Dict assignment `d[k] = v`: updates in place when the key exists,
otherwise appends at the end (CPython insertion-order semantics). -/
def dictInsert (k : String) (v : MetaVal) : MetaDict → MetaDict
  | [] => [(k, v)]
  | (k2, v2) :: rest =>
      if k2 = k then (k, v) :: rest else (k2, v2) :: dictInsert k v rest

/-- llama_index TextNode as the notebook uses it: a text field and a
metadata dict. -/
structure TextNode where
  text : String
  metadata : MetaDict
deriving DecidableEq, Repr

instance : Inhabited TextNode := ⟨⟨"", []⟩⟩

/-- A directory entry seen by Path.iterdir(): its str() form (full path
string) and whether it is a regular file. -/
structure DirEntry where
  name : String
  isFile : Bool
deriving DecidableEq, Repr

/-- One record of the parser's per-page JSON list; the notebook reads only
its "md" field. -/
structure PageDict where
  md : String
deriving DecidableEq, Repr

/-- Strip a leading pattern from a character list, None when the list does
not start with the pattern. -/
def stripPre : List Char → List Char → Option (List Char)
  | [], s => some s
  | _ :: _, [] => none
  | a :: as, b :: bs => if a = b then stripPre as bs else none

/-- Python substring test `pat in s` on character lists. -/
def listContainsSub (pat : List Char) : List Char → Bool
  | [] => (stripPre pat []).isSome
  | c :: rest => (stripPre pat (c :: rest)).isSome || listContainsSub pat rest

/-- Python substring test `pat in s` on strings. -/
def strContainsSub (pat s : String) : Bool :=
  listContainsSub pat.data s.data

/-- Value of a decimal digit string, as Python int() computes it
(left fold, so leading zeros are allowed). -/
def digitsVal (ds : List Char) : Nat :=
  ds.foldl (fun acc c => acc * 10 + (c.toNat - 48)) 0

/-- Translation of the notebook's get_page_number: re.search of the pattern
dash page underscore digits dot jpg anchored at the end of str(file_name);
on a match return int of the digit group, otherwise return 0.  The
end-anchored search is computed by parsing the reversed character list:
the name must end in ".jpg", preceded by a nonempty digit run, preceded by
"-page_"; the digit run is maximal, which matches re.search's leftmost-
starting (hence, for this end-anchored pattern, last-occurrence) match.
Digits are modelled as ASCII digits. -/
def get_page_number (file_name : String) : Nat :=
  match stripPre (".jpg".data.reverse) file_name.data.reverse with
  | none => 0
  | some rest =>
      let digitsRev := rest.takeWhile Char.isDigit
      let beyond := rest.dropWhile Char.isDigit
      if digitsRev.isEmpty then 0
      else
        match stripPre ("-page_".data.reverse) beyond with
        | none => 0
        | some _ => digitsVal digitsRev.reverse

/-- Sort key order used by Python sorted(raw_files, key=get_page_number). -/
def pageLE (a b : String) : Prop :=
  get_page_number a ≤ get_page_number b

instance : DecidableRel pageLE := fun _a _b => Nat.decLe _ _

instance : IsTotal String pageLE := ⟨fun _a _b => Nat.le_total _ _⟩

instance : IsTrans String pageLE := ⟨fun _ _ _ h1 h2 => Nat.le_trans h1 h2⟩

/-- Translation of the notebook's _get_sorted_image_files: keep the regular
files whose str() contains "-page", sorted stably by get_page_number
(Python sorted is a stable sort; insertion sort with a total preorder is
stable in the same sense). -/
def _get_sorted_image_files (image_dir : List DirEntry) : List String :=
  let raw_files :=
    (image_dir.filter fun f => f.isFile && strContainsSub "-page" f.name).map
      DirEntry.name
  List.insertionSort pageLE raw_files

/-- The node built in one iteration of the get_text_nodes loop: empty text,
metadata dict with page_num = idx+1, the idx-th sorted image path, and the
idx-th markdown text, in that insertion order. -/
def mkPageNode (idx : Nat) (img md : String) : TextNode :=
  { text := ""
    metadata :=
      [("page_num", .num (idx + 1)),
       ("image_path", .str img),
       ("parsed_text_markdown", .str md)] }

/-- The loop of get_text_nodes: for each markdown text at running index idx,
index into the sorted image-file list (IndexError — modelled as none — when
idx is out of range) and build the node. -/
def buildNodes (image_files : List String) : Nat → List String → Option (List TextNode)
  | _, [] => some []
  | idx, md :: rest =>
      match image_files[idx]? with
      | none => none
      | some img =>
          match buildNodes image_files (idx + 1) rest with
          | none => none
          | some nodes => some (mkPageNode idx img md :: nodes)

/-- Translation of the notebook's get_text_nodes: sort the image files of
the directory, extract the md field of each page record, and pair them by
position.  none models the IndexError raised when there are fewer image
files than text records. -/
def get_text_nodes (image_dir : List DirEntry) (json_dicts : List PageDict) :
    Option (List TextNode) :=
  buildNodes (_get_sorted_image_files image_dir) 0 (json_dicts.map PageDict.md)

/-- Model of llama_index TextNode.get_content(metadata_mode=ALL) with the
default templates: the metadata lines "key: value" joined by newlines,
then a blank line, then the node text (the node text alone when the
metadata dict is empty).  MetadataMode.LLM renders identically here since
the notebook never sets excluded_llm_metadata_keys. -/
def get_content_all (n : TextNode) : String :=
  if n.metadata.isEmpty then n.text
  else
    String.intercalate "\n" (n.metadata.map fun kv => kv.1 ++ ": " ++ kv.2.render)
      ++ "\n\n" ++ n.text

/-- One content part of a chat message: its text and whether the notebook
tagged it with cache_control (type ephemeral). -/
structure ContentPart where
  text : String
  cacheControl : Bool
deriving DecidableEq, Repr

/-- A role-tagged chat message whose content is a list of parts (a plain
string content is a single untagged part). -/
structure ChatMessage where
  role : String
  contentParts : List ContentPart
deriving DecidableEq, Repr

/-- The notebook's whole_doc_text template applied to WHOLE_DOCUMENT. -/
def whole_doc_text (wholeDocument : String) : String :=
  "Here is the entire document.\n<document>\n" ++ wholeDocument ++ "\n</document>"

/-- The notebook's chunk_text template applied to CHUNK_CONTENT. -/
def chunk_text (chunkContent : String) : String :=
  "Here is the chunk we want to situate within the whole document\n<chunk>\n"
    ++ chunkContent
    ++ "\n</chunk>\nPlease give a short succinct context to situate this chunk within the overall document for the purposes of improving search retrieval of the chunk. Answer only with the succinct context and nothing else."

/-- The two messages built in each iteration of create_contextual_nodes:
the system message, and the user message whose first part is the filled
whole-document template flagged with cache_control and whose second part
is the filled chunk template. -/
def contextMessages (docText chunkContent : String) : List ChatMessage :=
  [{ role := "system",
     contentParts := [{ text := "You are a helpful AI Assistant.", cacheControl := false }] },
   { role := "user",
     contentParts :=
       [{ text := whole_doc_text docText, cacheControl := true },
        { text := chunk_text chunkContent, cacheControl := false }] }]

/-- doc_text of create_contextual_nodes: newline join of every node's
get_content(metadata_mode=all). -/
def doc_text_of (nodes : List TextNode) : String :=
  String.intercalate "\n" (nodes.map get_content_all)

/-- One iteration of the create_contextual_nodes loop on a node value:
deep-copy the node (value copy), issue the chat request to the generation
stub, and set the "context" metadata key to the reply text.  The stub
`llm` models llm.chat followed by str() on the reply: messages in, reply
text out. -/
def annotateNode (docText : String) (llm : List ChatMessage → String)
    (node : TextNode) : TextNode :=
  { node with
    metadata :=
      dictInsert "context"
        (.str (llm (contextMessages docText (get_content_all node))))
        node.metadata }

/-- Translation of create_contextual_nodes on node values: compute doc_text
once from all nodes, then map the per-node annotation over the list in
order. -/
def create_contextual_nodes (nodes : List TextNode)
    (llm : List ChatMessage → String) : List TextNode :=
  nodes.map (annotateNode (doc_text_of nodes) llm)

/-- The generation requests issued by create_contextual_nodes, in loop
order: one chat-message list per node, built from the same doc_text. -/
def contextual_requests (nodes : List TextNode)
    (llm : List ChatMessage → String) : List (List ChatMessage) :=
  let _ := llm
  nodes.map fun node => contextMessages (doc_text_of nodes) (get_content_all node)

/-- Heap of Python node objects: a node reference is an index into the
store, so aliasing and mutation are explicit. -/
abbrev Store := List TextNode

/-- Dereference a node reference (valid references are maintained by
hypotheses in the theorems). -/
def readRef (st : Store) (r : Nat) : TextNode :=
  st.getD r default

/-- One iteration of the create_contextual_nodes loop with reference
semantics: read the node, deepcopy it into a fresh cell, mutate only the
fresh cell by adding the "context" key, and append the fresh reference to
the result list. -/
def annotateStep (docText : String) (llm : List ChatMessage → String)
    (acc : Store × List Nat) (r : Nat) : Store × List Nat :=
  (acc.1 ++ [annotateNode docText llm (readRef acc.1 r)],
   acc.2 ++ [acc.1.length])

/-- create_contextual_nodes with reference semantics: doc_text is computed
from the current values of the input references before the loop, then the
loop runs left to right. -/
def create_contextual_nodes_st (st : Store) (refs : List Nat)
    (llm : List ChatMessage → String) : Store × List Nat :=
  refs.foldl (annotateStep (doc_text_of (refs.map (readRef st))) llm) (st, [])

/-- llama_index ImageNode as the query engine builds it: only the
image_path field is set. -/
structure ImageNode where
  image_path : String
deriving DecidableEq, Repr

/-- The Response the query engine returns: the reply text, the retrieved
nodes as source_nodes, and the metadata dict entries "text_nodes" and
"image_nodes". -/
structure Response where
  response : String
  source_nodes : List TextNode
  metadata_text_nodes : List TextNode
  metadata_image_nodes : List ImageNode
deriving DecidableEq, Repr

/-- The notebook's QA_PROMPT template applied to context_str and
query_str. -/
def qa_prompt_format (context_str query_str : String) : String :=
  "Below we give parsed text from slides in two different formats, as well as the image.\n\n---------------------\n"
    ++ context_str
    ++ "\n---------------------\nGiven the context information and not prior knowledge, answer the query. Explain whether you got the answer\nfrom the parsed markdown or raw text or image, and if there\x27s discrepancies, and your reasoning for the final answer.\n\nQuery: "
    ++ query_str ++ "\nAnswer: "

/-- The MultimodalQueryEngine's collaborators as stubs: the bound
retriever (query text to retrieved nodes) and the multimodal generation
service (formatted prompt and image documents to reply text). -/
structure MultimodalQueryEngine where
  retriever : String → List TextNode
  multi_modal_llm : String → List ImageNode → String

/-- The engine's image-node construction: one ImageNode per retrieved node,
in order, from its image_path metadata entry; none models the KeyError (or
type error) when a node lacks a string image_path. -/
def imageNodesOf : List TextNode → Option (List ImageNode)
  | [] => some []
  | n :: rest =>
      match dictGet "image_path" n.metadata with
      | some (.str p) => (imageNodesOf rest).map (fun l => ⟨p⟩ :: l)
      | _ => none

/-- Total accessor for a node's string image_path metadata (empty string
when absent; the theorems only use it where presence is hypothesised). -/
def imagePathD (n : TextNode) : String :=
  match dictGet "image_path" n.metadata with
  | some (.str p) => p
  | _ => ""

/-- Translation of MultimodalQueryEngine.custom_query: retrieve nodes,
build one image node per retrieved node from its image_path metadata,
join the retrieved nodes' get_content into the QA prompt, call the
multimodal service once with the prompt and all images, and wrap reply,
source nodes, and both metadata entries into a Response. -/
def custom_query (e : MultimodalQueryEngine) (query_str : String) :
    Option Response :=
  let nodes := e.retriever query_str
  match imageNodesOf nodes with
  | none => none
  | some image_nodes =>
      let context_str := String.intercalate "\n\n" (nodes.map get_content_all)
      let fmt_prompt := qa_prompt_format context_str query_str
      let llm_response := e.multi_modal_llm fmt_prompt image_nodes
      some
        { response := llm_response
          source_nodes := nodes
          metadata_text_nodes := nodes
          metadata_image_nodes := image_nodes }

/-- The context summaries produced by one run of the reference-semantics
create_contextual_nodes: for each returned node reference, the value of
its "context" metadata key in the resulting heap. -/
def runContexts (st : Store) (refs : List Nat)
    (llm : List ChatMessage → String) : List (Option MetaVal) :=
  (create_contextual_nodes_st st refs llm).2.map fun r =>
    dictGet "context" (readRef (create_contextual_nodes_st st refs llm).1 r).metadata

/-! Helper lemmas. -/

theorem stripPre_append (pat rest : List Char) :
    stripPre pat (pat ++ rest) = some rest := by
  induction pat with
  | nil => rfl
  | cons a as ih => simp [stripPre, ih]

theorem stripPre_eq_some {pat s t : List Char}
    (h : stripPre pat s = some t) : s = pat ++ t := by
  induction pat generalizing s with
  | nil =>
      simp only [stripPre, Option.some.injEq] at h
      simpa using h
  | cons a as ih =>
      cases s with
      | nil => simp [stripPre] at h
      | cons b bs =>
          by_cases hab : a = b
          · subst hab
            simp only [stripPre, if_pos rfl] at h
            simpa using ih h
          · simp [stripPre, hab] at h

theorem takeWhile_append_all {p : Char → Bool} {xs : List Char} (y : Char)
    (ys : List Char) (hxs : ∀ x ∈ xs, p x = true) (hy : p y = false) :
    (xs ++ y :: ys).takeWhile p = xs := by
  induction xs with
  | nil => simp [List.takeWhile, hy]
  | cons a as ih =>
      have ha : p a = true := hxs a (by simp)
      simp only [List.cons_append, List.takeWhile, ha]
      simpa using ih fun x hx => hxs x (by simp [hx])

theorem dropWhile_append_all {p : Char → Bool} {xs : List Char} (y : Char)
    (ys : List Char) (hxs : ∀ x ∈ xs, p x = true) (hy : p y = false) :
    (xs ++ y :: ys).dropWhile p = y :: ys := by
  induction xs with
  | nil => simp [List.dropWhile, hy]
  | cons a as ih =>
      have ha : p a = true := hxs a (by simp)
      simp only [List.cons_append, List.dropWhile, ha]
      simpa using ih fun x hx => hxs x (by simp [hx])

theorem digitsVal_aux (ds : List Char) :
    ∀ acc : Nat,
      ds.foldl (fun acc c => acc * 10 + (c.toNat - 48)) acc =
        Nat.ofDigits 10 ((ds.map fun c => c.toNat - 48).reverse) +
          acc * 10 ^ ds.length := by
  induction ds with
  | nil => intro acc; simp [Nat.ofDigits]
  | cons c cs ih =>
      intro acc
      simp only [List.foldl_cons, List.map_cons, List.reverse_cons,
        List.length_cons]
      rw [ih (acc * 10 + (c.toNat - 48)), Nat.ofDigits_append,
        Nat.ofDigits_singleton]
      simp only [List.length_reverse, List.length_map]
      ring

theorem digitsVal_eq_ofDigits (ds : List Char) :
    digitsVal ds = Nat.ofDigits 10 ((ds.map fun c => c.toNat - 48).reverse) := by
  simpa using digitsVal_aux ds 0

theorem string_append_data (a b c d : String) :
    (a ++ b ++ c ++ d).data = a.data ++ b.data ++ c.data ++ d.data := by
  simp [String.data_append]

theorem get_page_number_of_match (stem : String) (ds : List Char)
    (h1 : ds ≠ []) (h2 : ∀ c ∈ ds, c.isDigit = true) :
    get_page_number (stem ++ "-page_" ++ String.mk ds ++ ".jpg") = digitsVal ds := by
  have hdata : (stem ++ "-page_" ++ String.mk ds ++ ".jpg").data =
      stem.data ++ "-page_".data ++ ds ++ ".jpg".data := by
    simp [string_append_data stem "-page_" (String.mk ds) ".jpg"]
  have hrev : (stem ++ "-page_" ++ String.mk ds ++ ".jpg").data.reverse =
      ".jpg".data.reverse ++ (ds.reverse ++ ("-page_".data.reverse ++ stem.data.reverse)) := by
    rw [hdata]
    simp [List.reverse_append]
  unfold get_page_number
  rw [hrev, stripPre_append]
  have hpageRev : "-page_".data.reverse = '_' :: "egap-".data := rfl
  have hdigs : ∀ x ∈ ds.reverse, x.isDigit = true := fun x hx =>
    h2 x (List.mem_reverse.mp hx)
  have hunder : ('_' : Char).isDigit = false := rfl
  have htake : ((ds.reverse ++ ("-page_".data.reverse ++ stem.data.reverse)).takeWhile Char.isDigit) = ds.reverse := by
    rw [hpageRev]
    simpa using takeWhile_append_all '_' ("egap-".data ++ stem.data.reverse) hdigs hunder
  have hdrop : ((ds.reverse ++ ("-page_".data.reverse ++ stem.data.reverse)).dropWhile Char.isDigit) =
      '_' :: ("egap-".data ++ stem.data.reverse) := by
    rw [hpageRev]
    simpa using dropWhile_append_all '_' ("egap-".data ++ stem.data.reverse) hdigs hunder
  simp only [htake, hdrop]
  have hne : (ds.reverse.isEmpty) = false := by
    cases ds with
    | nil => exact absurd rfl h1
    | cons a as => simp [List.isEmpty_iff]
  rw [hne]
  simp only [Bool.false_eq_true, if_false]
  rw [hpageRev, show ('_' :: ("egap-".data ++ stem.data.reverse)) =
      ('_' :: "egap-".data) ++ stem.data.reverse from rfl, stripPre_append]
  simp [List.reverse_reverse]

theorem get_page_number_of_no_match (name : String)
    (h : ¬ ∃ stem : String, ∃ ds : List Char, ds ≠ [] ∧
        (∀ c ∈ ds, c.isDigit = true) ∧
        name = stem ++ "-page_" ++ String.mk ds ++ ".jpg") :
    get_page_number name = 0 := by
  unfold get_page_number
  cases hjpg : stripPre (".jpg".data.reverse) name.data.reverse with
  | none => rfl
  | some rest =>
      simp only []
      by_cases hemp : (rest.takeWhile Char.isDigit).isEmpty
      · simp [hemp]
      · simp only [hemp, Bool.false_eq_true, if_false]
        cases hpage : stripPre ("-page_".data.reverse)
            (rest.dropWhile Char.isDigit) with
        | none => rfl
        | some stemRev =>
            exfalso
            apply h
            have hname : name.data.reverse = ".jpg".data.reverse ++ rest :=
              stripPre_eq_some hjpg
            have hrest : rest =
                rest.takeWhile Char.isDigit ++ rest.dropWhile Char.isDigit :=
              (List.takeWhile_append_dropWhile Char.isDigit rest).symm
            have hdrop : rest.dropWhile Char.isDigit =
                "-page_".data.reverse ++ stemRev := stripPre_eq_some hpage
            refine ⟨String.mk stemRev.reverse,
              (rest.takeWhile Char.isDigit).reverse, ?_, ?_, ?_⟩
            · intro hnil
              rw [List.reverse_eq_nil_iff] at hnil
              rw [hnil] at hemp
              exact hemp rfl
            · intro c hc
              exact List.mem_takeWhile_imp (List.mem_reverse.mp hc)
            · apply String.ext
              have hmk1 : (String.mk stemRev.reverse).data = stemRev.reverse := rfl
              have hmk2 : (String.mk (rest.takeWhile Char.isDigit).reverse).data =
                  (rest.takeWhile Char.isDigit).reverse := rfl
              rw [string_append_data, hmk1, hmk2]
              have hfull : name.data.reverse =
                  ".jpg".data.reverse ++ (rest.takeWhile Char.isDigit ++
                    ("-page_".data.reverse ++ stemRev)) := by
                rw [hname]
                congr 1
                rw [← hdrop]
                exact hrest
              have := congrArg List.reverse hfull
              rw [List.reverse_reverse] at this
              rw [this]
              simp [List.reverse_append, List.append_assoc]

theorem no_match_png_has_no_trailing_pattern :
    ¬ ∃ stem : String, ∃ ds : List Char, ds ≠ [] ∧
        (∀ c ∈ ds, c.isDigit = true) ∧
        "no_match.png" = stem ++ "-page_" ++ String.mk ds ++ ".jpg" := by
  rintro ⟨stem, ds, _hne, _hdig, heq⟩
  have hdata := congrArg String.data heq
  rw [string_append_data] at hdata
  have hmk : (String.mk ds).data = ds := rfl
  rw [hmk] at hdata
  have hrev := congrArg List.reverse hdata
  rw [List.reverse_append, List.reverse_append, List.reverse_append] at hrev
  have hl : "no_match.png".data.reverse =
      ['g', 'n', 'p', '.', 'h', 'c', 't', 'a', 'm', '_', 'o', 'n'] := rfl
  have hr : ".jpg".data.reverse = ['g', 'p', 'j', '.'] := rfl
  rw [hl, hr] at hrev
  simp at hrev

/-- C4: for every filename string, get_page_number returns the decimal
value of the digits when the name decomposes as a trailing
"-page_(digits).jpg" pattern, and returns the sentinel 0 when no such
trailing decomposition exists. -/
theorem get_page_number_spec (name : String) :
    (∀ stem : String, ∀ ds : List Char, ds ≠ [] →
        (∀ c ∈ ds, c.isDigit = true) →
        name = stem ++ "-page_" ++ String.mk ds ++ ".jpg" →
        get_page_number name =
          Nat.ofDigits 10 ((ds.map fun c => c.toNat - 48).reverse))
    ∧ ((¬ ∃ stem : String, ∃ ds : List Char, ds ≠ [] ∧
          (∀ c ∈ ds, c.isDigit = true) ∧
          name = stem ++ "-page_" ++ String.mk ds ++ ".jpg") →
        get_page_number name = 0) := by
  constructor
  · intro stem ds h1 h2 heq
    rw [heq, get_page_number_of_match stem ds h1 h2, digitsVal_eq_ofDigits]
  · exact get_page_number_of_no_match name

/-- Witness for C4: the spec's own examples, "abc-page_7.jpg" yields 7 and
"no_match.png" yields the sentinel 0. -/
theorem get_page_number_spec_witness :
    get_page_number "abc-page_7.jpg" = 7 ∧ get_page_number "no_match.png" = 0 := by
  constructor
  · have h := (get_page_number_spec "abc-page_7.jpg").1 "abc" ['7']
      (by decide) (by decide) (by decide)
    rw [h]; decide
  · exact (get_page_number_spec "no_match.png").2
      no_match_png_has_no_trailing_pattern

theorem dictGet_dictInsert_self (k : String) (v : MetaVal) :
    ∀ m : MetaDict, dictGet k (dictInsert k v m) = some v := by
  intro m
  induction m with
  | nil => simp [dictGet, dictInsert]
  | cons kv rest ih =>
      by_cases hk : kv.1 = k
      · simp [dictInsert, dictGet, hk]
      · simpa [dictInsert, dictGet, hk] using ih

/-- C2: create_contextual_nodes issues exactly one generation request per
input chunk (the request log has one entry per node, in order), and the
"context" metadata value of the i-th output node is exactly the reply the
generation stub returns for the i-th request, with nothing added or
removed. -/
theorem create_contextual_one_request_verbatim (nodes : List TextNode)
    (llm : List ChatMessage → String) :
    (contextual_requests nodes llm).length = nodes.length ∧
    (create_contextual_nodes nodes llm).length = nodes.length ∧
    ∀ i, i < nodes.length →
      ∃ out req,
        (create_contextual_nodes nodes llm)[i]? = some out ∧
        (contextual_requests nodes llm)[i]? = some req ∧
        dictGet "context" out.metadata = some (.str (llm req)) := by
  refine ⟨by simp [contextual_requests], by simp [create_contextual_nodes], ?_⟩
  intro i hi
  refine ⟨annotateNode (doc_text_of nodes) llm nodes[i],
    contextMessages (doc_text_of nodes) (get_content_all nodes[i]), ?_, ?_, ?_⟩
  · simp [create_contextual_nodes, List.getElem?_map,
      List.getElem?_eq_getElem hi]
  · simp [contextual_requests, List.getElem?_map, List.getElem?_eq_getElem hi]
  · exact dictGet_dictInsert_self "context" _ nodes[i].metadata

/-- Witness for C2 at a one-node list and the constant stub returning
"CTX". -/
theorem create_contextual_one_request_verbatim_witness :
    ∃ out req,
      (create_contextual_nodes [⟨"t", []⟩] (fun _ => "CTX"))[0]? = some out ∧
      (contextual_requests [⟨"t", []⟩] (fun _ => "CTX"))[0]? = some req ∧
      dictGet "context" out.metadata =
        some (.str ((fun _ => "CTX") req)) :=
  (create_contextual_one_request_verbatim [⟨"t", []⟩] (fun _ => "CTX")).2.2 0
    (by decide)

/-- C6: every request issued by the annotation loop has the same fixed
shape: the system message, then a user message whose first content part is
the whole-document template filled with the newline join of every chunk's
content in page order and flagged with cache_control, and whose second,
chunk-specific part is the chunk template filled with that chunk's
content.  The first part does not depend on the chunk index. -/
theorem contextual_prompt_shape (nodes : List TextNode)
    (llm : List ChatMessage → String) (i : Nat) (hi : i < nodes.length) :
    (contextual_requests nodes llm)[i]? =
      some
        [{ role := "system",
           contentParts :=
             [{ text := "You are a helpful AI Assistant.", cacheControl := false }] },
         { role := "user",
           contentParts :=
             [{ text := whole_doc_text
                  (String.intercalate "\n" (nodes.map get_content_all)),
                cacheControl := true },
              { text := chunk_text (get_content_all nodes[i]),
                cacheControl := false }] }] := by
  simp [contextual_requests, List.getElem?_map, List.getElem?_eq_getElem hi,
    contextMessages, doc_text_of]

/-- Witness for C6 at a concrete two-node list: the cached first part is
the whole-document wrap of both contents, and only the second part is
chunk-specific. -/
theorem contextual_prompt_shape_witness :
    (contextual_requests [⟨"a", []⟩, ⟨"b", []⟩] (fun _ => "r"))[0]? =
      some
        [{ role := "system",
           contentParts :=
             [{ text := "You are a helpful AI Assistant.", cacheControl := false }] },
         { role := "user",
           contentParts :=
             [{ text := whole_doc_text "a\nb", cacheControl := true },
              { text := chunk_text "a", cacheControl := false }] }] := by
  exact contextual_prompt_shape [⟨"a", []⟩, ⟨"b", []⟩] (fun _ => "r") 0
    (by decide)

/-- C9: a file name enters the sorted pairing list exactly when the
directory holds an entry with that name which is a regular file and whose
name contains the substring "-page"; any other entry is excluded entirely
(rather than entering with sentinel page number 0). -/
theorem sorted_image_files_membership (dir : List DirEntry) (name : String) :
    name ∈ _get_sorted_image_files dir ↔
      ∃ e ∈ dir, e.name = name ∧ e.isFile = true ∧
        strContainsSub "-page" e.name = true := by
  unfold _get_sorted_image_files
  rw [(List.perm_insertionSort pageLE _).mem_iff]
  simp only [List.mem_map, List.mem_filter, Bool.and_eq_true]
  constructor
  · rintro ⟨e, ⟨he, hf, hc⟩, hn⟩
    exact ⟨e, he, hn, hf, hc⟩
  · rintro ⟨e, he, hn, hf, hc⟩
    exact ⟨e, ⟨he, hf, hc⟩, hn⟩

theorem buildNodes_some_of_le (imgs : List String) :
    ∀ (texts : List String) (k : Nat), k + texts.length ≤ imgs.length →
      ∃ ns, buildNodes imgs k texts = some ns := by
  intro texts
  induction texts with
  | nil => intro k _; exact ⟨[], rfl⟩
  | cons md rest ih =>
      intro k hk
      have hklt : k < imgs.length := by
        simp only [List.length_cons] at hk; omega
      obtain ⟨ns, hns⟩ := ih (k + 1) (by simp only [List.length_cons] at hk; omega)
      refine ⟨mkPageNode k imgs[k] md :: ns, ?_⟩
      simp [buildNodes, List.getElem?_eq_getElem hklt, hns]

theorem buildNodes_none_of_lt (imgs : List String) :
    ∀ (texts : List String) (k : Nat), imgs.length - k < texts.length →
      buildNodes imgs k texts = none := by
  intro texts
  induction texts with
  | nil => intro k hk; simp at hk
  | cons md rest ih =>
      intro k hk
      by_cases hklt : k < imgs.length
      · have : imgs.length - (k + 1) < rest.length := by
          simp only [List.length_cons] at hk; omega
        simp [buildNodes, List.getElem?_eq_getElem hklt, ih (k + 1) this]
      · have : imgs[k]? = none := by
          rw [List.getElem?_eq_none_iff]; omega
        simp [buildNodes, this]

theorem buildNodes_spec (imgs : List String) :
    ∀ (texts : List String) (k : Nat) (ns : List TextNode),
      buildNodes imgs k texts = some ns →
      ns.length = texts.length ∧
      ∀ i, i < texts.length →
        ∃ img, imgs[k + i]? = some img ∧
          ∃ md, texts[i]? = some md ∧ ns[i]? = some (mkPageNode (k + i) img md) := by
  intro texts
  induction texts with
  | nil =>
      intro k ns h
      simp only [buildNodes, Option.some.injEq] at h
      subst h
      exact ⟨rfl, fun i hi => absurd hi (by simp)⟩
  | cons md rest ih =>
      intro k ns h
      simp only [buildNodes] at h
      cases himg : imgs[k]? with
      | none => rw [himg] at h; exact absurd h (by simp)
      | some img =>
          rw [himg] at h
          cases hrec : buildNodes imgs (k + 1) rest with
          | none => rw [hrec] at h; exact absurd h (by simp)
          | some ns2 =>
              rw [hrec] at h
              simp only [Option.some.injEq] at h
              subst h
              obtain ⟨hlen, hspec⟩ := ih (k + 1) ns2 hrec
              constructor
              · simp [hlen]
              · intro i hi
                cases i with
                | zero =>
                    exact ⟨img, by simpa using himg, md, by simp, by simp⟩
                | succ j =>
                    have hj : j < rest.length := by
                      simp only [List.length_cons] at hi; omega
                    obtain ⟨img2, himg2, md2, hmd2, hns2⟩ := hspec j hj
                    refine ⟨img2, ?_, md2, ?_, ?_⟩
                    · rw [show k + (j + 1) = k + 1 + j by omega]; exact himg2
                    · simpa using hmd2
                    · rw [show k + (j + 1) = k + 1 + j by omega]
                      simpa using hns2

/-- C10: every node produced by get_text_nodes has the empty string as its
text field and carries the page content exclusively in metadata, with
exactly the keys page_num, image_path and parsed_text_markdown in that
order; consequently its rendered content is assembled entirely from the
metadata lines (the text contributes nothing). -/
theorem get_text_nodes_metadata_shape (dir : List DirEntry)
    (texts : List PageDict) (ns : List TextNode)
    (h : get_text_nodes dir texts = some ns) :
    ∀ node ∈ ns, node.text = "" ∧
      (∃ pn img md, node.metadata =
        [("page_num", MetaVal.num pn), ("image_path", MetaVal.str img),
         ("parsed_text_markdown", MetaVal.str md)]) ∧
      get_content_all node =
        String.intercalate "\n"
          (node.metadata.map fun kv => kv.1 ++ ": " ++ kv.2.render) ++ "\n\n" := by
  intro node hmem
  obtain ⟨hlen, hspec⟩ := buildNodes_spec _ _ 0 ns h
  obtain ⟨i, hi, hnode⟩ := List.mem_iff_getElem.mp hmem
  have hit : i < (texts.map PageDict.md).length := by rw [← hlen]; exact hi
  obtain ⟨img, _himg, md, _hmd, hns⟩ := hspec i hit
  rw [List.getElem?_eq_getElem hi] at hns
  have hform : node = mkPageNode (0 + i) img md := by
    rw [← hnode]; exact Option.some.inj hns
  subst hform
  refine ⟨rfl, ⟨0 + i + 1, img, md, rfl⟩, ?_⟩
  simp [get_content_all, mkPageNode]

/-- Witness for C10 at a one-page directory and text list. -/
theorem get_text_nodes_metadata_shape_witness :
    (mkPageNode 0 "img-page_1.jpg" "hello").text = "" ∧
    (∃ pn img md, (mkPageNode 0 "img-page_1.jpg" "hello").metadata =
      [("page_num", MetaVal.num pn), ("image_path", MetaVal.str img),
       ("parsed_text_markdown", MetaVal.str md)]) ∧
    get_content_all (mkPageNode 0 "img-page_1.jpg" "hello") =
      String.intercalate "\n"
        ((mkPageNode 0 "img-page_1.jpg" "hello").metadata.map
          fun kv => kv.1 ++ ": " ++ kv.2.render) ++ "\n\n" := by
  exact get_text_nodes_metadata_shape [⟨"img-page_1.jpg", true⟩] [⟨"hello"⟩]
    [mkPageNode 0 "img-page_1.jpg" "hello"] (by rfl)
    (mkPageNode 0 "img-page_1.jpg" "hello") (by simp)

/-- Counterexample to C5 as stated: at the concrete input of an empty image
directory and one text record the counts differ, yet get_text_nodes does
not return a full chunk list — it fails (IndexError, modelled as none). -/
theorem get_text_nodes_mismatch_cex :
    (_get_sorted_image_files []).length ≠ ([⟨"a"⟩] : List PageDict).length ∧
    get_text_nodes [] [⟨"a"⟩] = none ∧
    ¬ ∃ ns, get_text_nodes [] [⟨"a"⟩] = some ns := by
  refine ⟨by decide, by rfl, ?_⟩
  rintro ⟨ns, hns⟩
  rw [show get_text_nodes [] [⟨"a"⟩] = none from rfl] at hns
  exact absurd hns (by simp)

/-- C5 amended: when the image-file count is at least the text-record
count, get_text_nodes silently returns a full chunk list pairing by
positional index with no validation; when the image-file count is smaller
than the text-record count, the call fails with an IndexError (none)
instead of returning a list. -/
theorem get_text_nodes_length_mismatch (dir : List DirEntry)
    (texts : List PageDict) :
    (texts.length ≤ (_get_sorted_image_files dir).length →
      ∃ ns, get_text_nodes dir texts = some ns ∧ ns.length = texts.length ∧
        ∀ i, i < texts.length →
          ∃ img, (_get_sorted_image_files dir)[i]? = some img ∧
            ∃ pd, texts[i]? = some pd ∧
              ns[i]? = some (mkPageNode i img pd.md)) ∧
    ((_get_sorted_image_files dir).length < texts.length →
      get_text_nodes dir texts = none) := by
  constructor
  · intro hle
    obtain ⟨ns, hns⟩ := buildNodes_some_of_le (_get_sorted_image_files dir)
      (texts.map PageDict.md) 0 (by simpa using hle)
    obtain ⟨hlen, hspec⟩ := buildNodes_spec _ _ 0 ns hns
    refine ⟨ns, hns, by simpa using hlen, ?_⟩
    intro i hi
    obtain ⟨img, himg, md, hmd, hnode⟩ := hspec i (by simpa using hi)
    rw [List.getElem?_map] at hmd
    cases ht : texts[i]? with
    | none => rw [ht] at hmd; simp at hmd
    | some pd =>
        rw [ht] at hmd
        have hpd : pd.md = md := by simpa using hmd
        refine ⟨img, by simpa using himg, pd, rfl, ?_⟩
        rw [hpd]
        simpa using hnode
  · intro hlt
    exact buildNodes_none_of_lt _ (texts.map PageDict.md) 0 (by simpa using hlt)

/-- Witness for C5 amended, exercising both branches: a surplus of image
files still yields a full positional pairing, and a deficit yields the
error. -/
theorem get_text_nodes_length_mismatch_witness :
    (∃ ns,
      get_text_nodes [⟨"a-page_1.jpg", true⟩, ⟨"b-page_2.jpg", true⟩] [⟨"t"⟩]
        = some ns ∧
      ns.length = ([⟨"t"⟩] : List PageDict).length ∧
      ∀ i, i < ([⟨"t"⟩] : List PageDict).length →
        ∃ img,
          (_get_sorted_image_files
            [⟨"a-page_1.jpg", true⟩, ⟨"b-page_2.jpg", true⟩])[i]? = some img ∧
          ∃ pd, ([⟨"t"⟩] : List PageDict)[i]? = some pd ∧
            ns[i]? = some (mkPageNode i img pd.md)) ∧
    get_text_nodes [] [⟨"x"⟩] = none := by
  constructor
  · exact (get_text_nodes_length_mismatch
      [⟨"a-page_1.jpg", true⟩, ⟨"b-page_2.jpg", true⟩] [⟨"t"⟩]).1 (by decide)
  · exact (get_text_nodes_length_mismatch [] [⟨"x"⟩]).2 (by decide)

theorem sorted_le_range' (s n : Nat) :
    List.Sorted (· ≤ ·) (List.range' s n) := by
  induction n generalizing s with
  | zero => simp [List.Sorted]
  | succ m ih =>
      rw [List.range'_succ, List.sorted_cons]
      refine ⟨?_, ih (s + 1)⟩
      intro b hb
      have := (List.mem_range'_1.mp hb).1
      omega

/-- C1: when the sorted image files' embedded page numbers are exactly
1..n for n the number of parser page records, get_text_nodes returns one
chunk per page and, at every index i, the chunk's page_num metadata (i+1)
equals the page number extracted from the filename of the image it is
paired with. -/
theorem get_text_nodes_pairing (dir : List DirEntry) (texts : List PageDict)
    (hperm : ((_get_sorted_image_files dir).map get_page_number).Perm
      (List.range' 1 texts.length)) :
    ∃ ns, get_text_nodes dir texts = some ns ∧ ns.length = texts.length ∧
      ∀ i, i < texts.length →
        ∃ node, ns[i]? = some node ∧
          dictGet "page_num" node.metadata = some (.num (i + 1)) ∧
          ∃ p, dictGet "image_path" node.metadata = some (.str p) ∧
            get_page_number p = i + 1 := by
  have hlen : (_get_sorted_image_files dir).length = texts.length := by
    have h1 := hperm.length_eq
    simpa using h1
  have hsorted : List.Sorted pageLE (_get_sorted_image_files dir) := by
    unfold _get_sorted_image_files
    exact List.sorted_insertionSort pageLE _
  have hmapSorted :
      List.Sorted (· ≤ ·) ((_get_sorted_image_files dir).map get_page_number) :=
    List.pairwise_map.mpr hsorted
  have heq : (_get_sorted_image_files dir).map get_page_number =
      List.range' 1 texts.length :=
    List.eq_of_perm_of_sorted hperm hmapSorted (sorted_le_range' 1 texts.length)
  obtain ⟨ns, hns⟩ := buildNodes_some_of_le (_get_sorted_image_files dir)
    (texts.map PageDict.md) 0 (by simp [hlen])
  obtain ⟨hnslen, hspec⟩ := buildNodes_spec _ _ 0 ns hns
  refine ⟨ns, hns, by simpa using hnslen, ?_⟩
  intro i hi
  obtain ⟨img, himg, md, _hmd, hnode⟩ := hspec i (by simpa using hi)
  refine ⟨mkPageNode (0 + i) img md, hnode, ?_, img, ?_, ?_⟩
  · simp [mkPageNode, dictGet]
  · simp [mkPageNode, dictGet]
  · have h1 : ((_get_sorted_image_files dir).map get_page_number)[i]? =
        some (get_page_number img) := by
      rw [List.getElem?_map, show (0 : Nat) + i = i from by omega] at *
      rw [himg]
      rfl
    rw [heq] at h1
    have hrl : i < (List.range' 1 texts.length).length := by simpa using hi
    have h2 : (List.range' 1 texts.length)[i]? = some (1 + i) := by
      rw [List.getElem?_eq_getElem hrl]
      exact congrArg some (List.getElem_range'_1 i hrl)
    rw [h2] at h1
    have h3 := Option.some.inj h1
    omega

/-- Witness for C1 at a two-page directory listed out of page order. -/
theorem get_text_nodes_pairing_witness :
    ∃ ns,
      get_text_nodes [⟨"x-page_2.jpg", true⟩, ⟨"y-page_1.jpg", true⟩]
        [⟨"p1"⟩, ⟨"p2"⟩] = some ns ∧
      ns.length = ([⟨"p1"⟩, ⟨"p2"⟩] : List PageDict).length ∧
      ∀ i, i < ([⟨"p1"⟩, ⟨"p2"⟩] : List PageDict).length →
        ∃ node, ns[i]? = some node ∧
          dictGet "page_num" node.metadata = some (.num (i + 1)) ∧
          ∃ p, dictGet "image_path" node.metadata = some (.str p) ∧
            get_page_number p = i + 1 := by
  exact get_text_nodes_pairing
    [⟨"x-page_2.jpg", true⟩, ⟨"y-page_1.jpg", true⟩] [⟨"p1"⟩, ⟨"p2"⟩]
    (by decide)

theorem readRef_append (base ext : Store) (r : Nat) (h : r < base.length) :
    readRef (base ++ ext) r = readRef base r := by
  unfold readRef
  rw [List.getD_eq_getElem?_getD, List.getD_eq_getElem?_getD,
    List.getElem?_append, if_pos h]

theorem annotate_fold (d : String) (llm : List ChatMessage → String) :
    ∀ (refs : List Nat) (base ext : Store) (outs : List Nat),
      (∀ r ∈ refs, r < base.length) →
      List.foldl (annotateStep d llm) (base ++ ext, outs) refs =
        (base ++ (ext ++ refs.map fun r => annotateNode d llm (readRef base r)),
         outs ++ List.range' (base.length + ext.length) refs.length) := by
  intro refs
  induction refs with
  | nil => intro base ext outs _; simp
  | cons r rs ih =>
      intro base ext outs h
      have hr : r < base.length := h r (by simp)
      have hrs : ∀ x ∈ rs, x < base.length := fun x hx => h x (by simp [hx])
      simp only [List.foldl_cons, annotateStep]
      rw [readRef_append base ext r hr]
      rw [show (base ++ ext) ++ [annotateNode d llm (readRef base r)] =
            base ++ (ext ++ [annotateNode d llm (readRef base r)]) from by
          simp [List.append_assoc],
        show (base ++ ext).length = base.length + ext.length from by simp]
      rw [ih base (ext ++ [annotateNode d llm (readRef base r)])
        (outs ++ [base.length + ext.length]) hrs]
      simp [List.append_assoc, List.range'_succ]
      exact Or.inr (by omega)

theorem create_contextual_nodes_st_eq (st : Store) (refs : List Nat)
    (llm : List ChatMessage → String) (h : ∀ r ∈ refs, r < st.length) :
    create_contextual_nodes_st st refs llm =
      (st ++ create_contextual_nodes (refs.map (readRef st)) llm,
       List.range' st.length refs.length) := by
  unfold create_contextual_nodes_st
  have h0 := annotate_fold (doc_text_of (refs.map (readRef st))) llm refs st
    [] [] h
  simp only [List.append_nil, List.nil_append, Nat.add_zero,
    List.length_nil] at h0
  rw [h0]
  congr 1
  unfold create_contextual_nodes
  rw [List.map_map]
  rfl

theorem map_readRef_range' :
    ∀ (l2 l1 : Store),
      (List.range' l1.length l2.length).map (readRef (l1 ++ l2)) = l2 := by
  intro l2
  induction l2 with
  | nil => intro l1; simp
  | cons x xs ih =>
      intro l1
      rw [show (x :: xs).length = xs.length + 1 from rfl, List.range'_succ,
        List.map_cons]
      have h1 : readRef (l1 ++ x :: xs) l1.length = x := by
        unfold readRef
        rw [List.getD_eq_getElem?_getD,
          List.getElem?_append_right (Nat.le_refl _)]
        simp
      have h2 : (List.range' (l1.length + 1) xs.length).map
          (readRef (l1 ++ x :: xs)) = xs := by
        have h3 := ih (l1 ++ [x])
        rw [List.length_append] at h3
        simpa [List.append_assoc] using h3
      rw [h1, h2]

theorem map_comp_readRef_range' {α : Type} (f : TextNode → α)
    (l1 l2 : Store) :
    (List.range' l1.length l2.length).map
      (fun r => f (readRef (l1 ++ l2) r)) = l2.map f := by
  have h1 := map_readRef_range' l2 l1
  calc (List.range' l1.length l2.length).map
        (fun r => f (readRef (l1 ++ l2) r))
      = ((List.range' l1.length l2.length).map (readRef (l1 ++ l2))).map f := by
        rw [List.map_map]; rfl
    _ = l2.map f := by rw [h1]

/-- C3: running create_contextual_nodes (reference semantics) never
mutates any input chunk: every original heap cell is unchanged after the
call, the returned references are all fresh (outside the original heap),
the returned cells are exactly the value-level annotated copies of the
inputs, and only those returned copies carry the added "context" metadata
key. -/
theorem create_contextual_preserves_originals (st : Store) (refs : List Nat)
    (llm : List ChatMessage → String) (h : ∀ r ∈ refs, r < st.length) :
    (∀ i, i < st.length →
        (create_contextual_nodes_st st refs llm).1[i]? = st[i]?) ∧
    (∀ o ∈ (create_contextual_nodes_st st refs llm).2, st.length ≤ o) ∧
    ((create_contextual_nodes_st st refs llm).2.map
        (readRef (create_contextual_nodes_st st refs llm).1) =
      create_contextual_nodes (refs.map (readRef st)) llm) ∧
    (∀ node ∈ create_contextual_nodes (refs.map (readRef st)) llm,
        (dictGet "context" node.metadata).isSome = true) := by
  have heq := create_contextual_nodes_st_eq st refs llm h
  refine ⟨?_, ?_, ?_, ?_⟩
  · intro i hi
    rw [heq]
    simp only []
    rw [List.getElem?_append, if_pos hi]
  · intro o ho
    rw [heq] at ho
    simp only [] at ho
    exact (List.mem_range'_1.mp ho).1
  · rw [heq]
    simp only []
    have hP : (create_contextual_nodes (refs.map (readRef st)) llm).length =
        refs.length := by
      simp [create_contextual_nodes]
    rw [← hP]
    exact map_readRef_range' _ st
  · intro node hnode
    unfold create_contextual_nodes at hnode
    obtain ⟨x, _hx, hxeq⟩ := List.mem_map.mp hnode
    rw [← hxeq]
    unfold annotateNode
    simp [dictGet_dictInsert_self]

/-- Witness for C3 at a one-cell heap and one input reference. -/
theorem create_contextual_preserves_originals_witness :
    (∀ i, i < ([⟨"t", []⟩] : Store).length →
        (create_contextual_nodes_st [⟨"t", []⟩] [0] (fun _ => "CTX")).1[i]? =
          ([⟨"t", []⟩] : Store)[i]?) ∧
    (∀ o ∈ (create_contextual_nodes_st [⟨"t", []⟩] [0] (fun _ => "CTX")).2,
        ([⟨"t", []⟩] : Store).length ≤ o) ∧
    ((create_contextual_nodes_st [⟨"t", []⟩] [0] (fun _ => "CTX")).2.map
        (readRef (create_contextual_nodes_st [⟨"t", []⟩] [0]
          (fun _ => "CTX")).1) =
      create_contextual_nodes (([0] : List Nat).map (readRef [⟨"t", []⟩]))
        (fun _ => "CTX")) ∧
    (∀ node ∈ create_contextual_nodes
        (([0] : List Nat).map (readRef [⟨"t", []⟩])) (fun _ => "CTX"),
        (dictGet "context" node.metadata).isSome = true) := by
  exact create_contextual_preserves_originals [⟨"t", []⟩] [0] (fun _ => "CTX")
    (by decide)

/-- C7: with a deterministic generation stub, a second run of
create_contextual_nodes over the same unmodified input references (on the
heap left by the first run) yields output nodes with identical "context"
summary values, index by index. -/
theorem contextual_second_run_same (st : Store) (refs : List Nat)
    (llm : List ChatMessage → String) (h : ∀ r ∈ refs, r < st.length) :
    runContexts st refs llm =
      runContexts (create_contextual_nodes_st st refs llm).1 refs llm := by
  have heq1 := create_contextual_nodes_st_eq st refs llm h
  have hst1 : (create_contextual_nodes_st st refs llm).1 =
      st ++ create_contextual_nodes (refs.map (readRef st)) llm := by
    rw [heq1]
  have h2 : ∀ r ∈ refs, r < (create_contextual_nodes_st st refs llm).1.length := by
    intro r hr
    rw [hst1, List.length_append]
    have := h r hr
    omega
  have hread : refs.map (readRef (create_contextual_nodes_st st refs llm).1) =
      refs.map (readRef st) := by
    apply List.map_congr_left
    intro r hr
    rw [hst1]
    exact readRef_append st _ r (h r hr)
  have heq2 := create_contextual_nodes_st_eq
    (create_contextual_nodes_st st refs llm).1 refs llm h2
  rw [hread] at heq2
  rw [hst1] at heq2
  unfold runContexts
  rw [hst1, heq2, heq1]
  simp only []
  have hP : (create_contextual_nodes (refs.map (readRef st)) llm).length =
      refs.length := by
    simp [create_contextual_nodes]
  rw [← hP]
  rw [map_comp_readRef_range'
    (fun node => dictGet "context" node.metadata) st
    (create_contextual_nodes (refs.map (readRef st)) llm)]
  rw [map_comp_readRef_range'
    (fun node => dictGet "context" node.metadata)
    (st ++ create_contextual_nodes (refs.map (readRef st)) llm)
    (create_contextual_nodes (refs.map (readRef st)) llm)]

/-- Witness for C7 at a one-cell heap, one reference and the constant
stub. -/
theorem contextual_second_run_same_witness :
    runContexts [⟨"t", []⟩] [0] (fun _ => "CTX") =
      runContexts (create_contextual_nodes_st [⟨"t", []⟩] [0]
        (fun _ => "CTX")).1 [0] (fun _ => "CTX") := by
  exact contextual_second_run_same [⟨"t", []⟩] [0] (fun _ => "CTX") (by decide)

theorem imagePathD_eq {n : TextNode} {p : String}
    (h : dictGet "image_path" n.metadata = some (.str p)) :
    imagePathD n = p := by
  unfold imagePathD
  rw [h]

theorem imageNodesOf_eq_some :
    ∀ ns : List TextNode,
      (∀ n ∈ ns, ∃ p, dictGet "image_path" n.metadata = some (.str p)) →
      imageNodesOf ns = some (ns.map fun n => ⟨imagePathD n⟩) := by
  intro ns
  induction ns with
  | nil => intro _; rfl
  | cons n rest ih =>
      intro h
      obtain ⟨p, hp⟩ := h n (by simp)
      have hrest := ih fun x hx => h x (by simp [hx])
      simp only [imageNodesOf, hp, hrest, List.map_cons, Option.map_some']
      rw [imagePathD_eq hp]

/-- C8: for every query, when every retrieved chunk carries a string
image_path metadata entry, custom_query builds exactly one image reference
per retrieved chunk, in retrieval order, with the path taken from that
chunk's image_path metadata, and returns a Response whose source_nodes are
the retrieved chunks, whose metadata carries those same text nodes and
image nodes, and whose reply is the single multimodal call on the
assembled prompt and those images. -/
theorem custom_query_spec (e : MultimodalQueryEngine) (q : String)
    (h : ∀ n ∈ e.retriever q,
      ∃ p, dictGet "image_path" n.metadata = some (.str p)) :
    ∃ r, custom_query e q = some r ∧
      r.source_nodes = e.retriever q ∧
      r.metadata_text_nodes = e.retriever q ∧
      r.metadata_image_nodes =
        (e.retriever q).map (fun n => ⟨imagePathD n⟩) ∧
      (∀ n ∈ e.retriever q,
        dictGet "image_path" n.metadata = some (.str (imagePathD n))) ∧
      r.response =
        e.multi_modal_llm
          (qa_prompt_format
            (String.intercalate "\n\n" ((e.retriever q).map get_content_all))
            q)
          r.metadata_image_nodes := by
  have himg := imageNodesOf_eq_some (e.retriever q) h
  refine ⟨{ response :=
              e.multi_modal_llm
                (qa_prompt_format
                  (String.intercalate "\n\n"
                    ((e.retriever q).map get_content_all)) q)
                ((e.retriever q).map fun n => ⟨imagePathD n⟩),
            source_nodes := e.retriever q,
            metadata_text_nodes := e.retriever q,
            metadata_image_nodes :=
              (e.retriever q).map fun n => ⟨imagePathD n⟩ },
    ?_, rfl, rfl, rfl, ?_, rfl⟩
  · simp only [custom_query]
    rw [himg]
  · intro n hn
    obtain ⟨p, hp⟩ := h n hn
    rw [imagePathD_eq hp]
    exact hp

/-- Witness for C8 at a one-chunk retriever and constant multimodal stub. -/
theorem custom_query_spec_witness :
    ∃ r, custom_query
        (MultimodalQueryEngine.mk (fun _ => [mkPageNode 0 "p.jpg" "md"])
          (fun _ _ => "ans")) "q" = some r ∧
      r.source_nodes = [mkPageNode 0 "p.jpg" "md"] ∧
      r.metadata_text_nodes = [mkPageNode 0 "p.jpg" "md"] ∧
      r.metadata_image_nodes =
        ([mkPageNode 0 "p.jpg" "md"].map fun n => ⟨imagePathD n⟩) ∧
      (∀ n ∈ [mkPageNode 0 "p.jpg" "md"],
        dictGet "image_path" n.metadata = some (.str (imagePathD n))) ∧
      r.response = "ans" := by
  exact custom_query_spec
    (MultimodalQueryEngine.mk (fun _ => [mkPageNode 0 "p.jpg" "md"])
      (fun _ _ => "ans")) "q"
    (by
      intro n hn
      rw [List.mem_singleton] at hn
      subst hn
      exact ⟨"p.jpg", by rfl⟩)
